import Mathlib

/-!
Verification of the `MatLineSeries` builder from
`src/matplotters/src/series/mat_line_series.rs`.

The builder stores an x sequence, a y sequence, a style and a marker
radius (`point_size`).  It is constructed either from paired sequences
(`from_xy`, truncating the longer input) or from a y sequence alone
(`from_y`, synthesizing an integer x axis of a caller-chosen machine
integer kind, with an overflow check based on a cast round trip).

Machine integers are modelled as mathematical integers together with the
bit width and signedness of the kind; Rust `as` casts are modelled
explicitly (truncation to the target width, two's-complement
reinterpretation for signed targets, sign extension back to `usize`).
The platform is taken to be 64-bit, so `usize` and `isize` have width 64
and every sequence produced by the program has length below `2 ^ 64`.
-/

/-- A fixed-width machine integer kind: bit width and signedness.  The
twelve kinds instantiated by the source macro are listed in
`IntKind.allKinds`. -/
structure IntKind where
  width : Nat
  signed : Bool
deriving DecidableEq

namespace IntKind

def u8 : IntKind := ⟨8, false⟩

def u16 : IntKind := ⟨16, false⟩

def u32 : IntKind := ⟨32, false⟩

def u64 : IntKind := ⟨64, false⟩

def u128 : IntKind := ⟨128, false⟩

def usize : IntKind := ⟨64, false⟩

def i8 : IntKind := ⟨8, true⟩

def i16 : IntKind := ⟨16, true⟩

def i32 : IntKind := ⟨32, true⟩

def i64 : IntKind := ⟨64, true⟩

def i128 : IntKind := ⟨128, true⟩

def isize : IntKind := ⟨64, true⟩

/-- The twelve integer kinds the source macro is instantiated at. -/
def allKinds : List IntKind :=
  [u8, u16, u32, u64, u128, usize, i8, i16, i32, i64, i128, isize]

/-- Rust `T::MAX` for kind `k`, as a mathematical integer. -/
def max (k : IntKind) : Int :=
  if k.signed then 2 ^ (k.width - 1) - 1 else 2 ^ k.width - 1

end IntKind

/-- Rust cast `n as T` from `usize` (so `n < 2 ^ 64`) to kind `k`:
truncate to the low `k.width` bits, then reinterpret them as
two's complement when `k` is signed. -/
def castUsizeTo (k : IntKind) (n : Nat) : Int :=
  let r := n % 2 ^ k.width
  if k.signed = true ∧ 2 ^ (k.width - 1) ≤ r then (r : Int) - 2 ^ k.width
  else (r : Int)

/-- Rust cast `v as usize` from a value of any of the twelve kinds on a
64-bit platform: the low 64 bits of the two's-complement representation
of `v` (sign extension for narrower signed kinds, truncation for the
128-bit kinds, identity for the 64-bit kinds). -/
def castToUsize (v : Int) : Nat := (v % 2 ^ 64).toNat

/-- Rust `(y_len as T) as usize` — the cast round trip the source uses
to detect that `y_len` does not fit in kind `k`. -/
def MAX_as_usize (k : IntKind) : Nat := castToUsize k.max

/-- Modelled from the spec: the style descriptor is an external opaque
type (spec section 6); only the distinction between the neutral "black"
color and any other color matters here. -/
inductive PlotColor
  | black
  | other
deriving DecidableEq

/-- Modelled from the spec: a stroke/fill style descriptor, external to
the core, supporting stroke-only vs filled variants. -/
structure ShapeStyle where
  color : PlotColor
  filled : Bool
  stroke_width : Nat
deriving DecidableEq

/-- Modelled from the spec: the value of `BLACK.into()` used as the
default style by both constructors — a solid neutral ("black") stroke,
not filled. -/
def blackInto : ShapeStyle :=
  { color := PlotColor.black, filled := false, stroke_width := 1 }

/-- The builder `MatLineSeries<DB, X, Y>`.  The `DB` parameter of the
source is a phantom type carrying no data and is dropped.  Field order
follows the source: `style`, `y`, `x`, `point_size`. -/
structure MatLineSeries (X Y : Type) where
  style : ShapeStyle
  y : List Y
  x : List X
  point_size : Nat

/-- The x sequence computed by `from_y` for kind `k` from `y_len = y.len()`;
the source computes it inline from `y.len()` alone.
`possibly_wrong_y_len` is `y_len as $value`; the condition is
`(possibly_wrong_y_len as usize) != y_len`.  In the overflow branch the
source builds `(0..=MAX).chain(repeat(MAX)).take(y_len)`, whose element
at position `i` is `min i MAX`; in the other branch it builds
`(0..possibly_wrong_y_len).collect()`, which is empty when
`possibly_wrong_y_len ≤ 0`. -/
def synth_x (k : IntKind) (y_len : Nat) : List Int :=
  let possibly_wrong_y_len : Int := castUsizeTo k y_len
  if castToUsize possibly_wrong_y_len ≠ y_len then
    (List.range y_len).map (fun i : Nat => min (i : Int) k.max)
  else
    (List.range possibly_wrong_y_len.toNat).map (fun i : Nat => (i : Int))

/-- `MatLineSeries::from_y`, instantiated at integer kind `k` for the x
axis.  The iterator argument is modelled by the list it collects to. -/
def from_y (k : IntKind) {Y : Type} (y_iter : List Y) : MatLineSeries Int Y :=
  let y := y_iter
  { style := blackInto, y := y, x := synth_x k y.length, point_size := 0 }

/-- `MatLineSeries::from_xy`.  The source matches on
`x.len().cmp(&y.len())` and truncates the longer vector with `take`
before building the struct. -/
def from_xy {X Y : Type} (x_iter : List X) (y_iter : List Y) :
    MatLineSeries X Y :=
  let x := x_iter
  let y := y_iter
  let xy : List X × List Y :=
    match compare x.length y.length with
    | Ordering.lt => (x, y.take x.length)
    | Ordering.gt => (x.take y.length, y)
    | Ordering.eq => (x, y)
  { style := blackInto, y := xy.2, x := xy.1, point_size := 0 }

/-- `MatLineSeries::point_size`: stores the given radius and returns the
builder. -/
def point_size {X Y : Type} (self : MatLineSeries X Y) (size : Nat) :
    MatLineSeries X Y :=
  { self with point_size := size }

/-- Modelled from the spec: the two drawable primitive kinds of the
external element family (spec section 6) — a circular marker and a
connected path. -/
inductive Primitive (X Y : Type) where
  | circle (center : X × Y) (radius : Nat) (style : ShapeStyle)
  | path (points : List (X × Y)) (style : ShapeStyle)

/-- Modelled from the spec: emission (spec section 4.4).  The `Iterator`
implementation in the source file is commented out, so emission is
modelled from the spec and that commented-out code: when the stored
pairs are non-empty, first one circle marker per pair in original order
when the radius is positive, then exactly one path through all pairs;
nothing when empty.  The stored pairs are the zip of the x and y
sequences. -/
def emit {X Y : Type} (self : MatLineSeries X Y) : List (Primitive X Y) :=
  let data := self.x.zip self.y
  if data.isEmpty then []
  else
    (if self.point_size > 0 then
      data.map (fun p => Primitive.circle p self.point_size self.style)
    else []) ++ [Primitive.path data self.style]

/-- Claim C2: `from_xy` stores two sequences of equal length
`min (len xs) (len ys)`, each the element-for-element prefix of its
input with order preserved (and, being a total function, raises no
error on mismatched lengths); concretely, `xs = [1,2,3,4]`,
`ys = [5,6]` stores the pairs `[(1,5),(2,6)]`. -/
theorem from_xy_truncates :
    (∀ (X Y : Type) (xs : List X) (ys : List Y),
      (from_xy xs ys).x = xs.take (min xs.length ys.length) ∧
      (from_xy xs ys).y = ys.take (min xs.length ys.length) ∧
      (from_xy xs ys).x.length = min xs.length ys.length ∧
      (from_xy xs ys).y.length = min xs.length ys.length) ∧
    ((from_xy [1, 2, 3, 4] [5, 6] : MatLineSeries Nat Nat).x.zip
        (from_xy [1, 2, 3, 4] [5, 6] : MatLineSeries Nat Nat).y =
      [(1, 5), (2, 6)]) := by
  constructor
  · intro X Y xs ys
    unfold from_xy
    rcases h : compare xs.length ys.length with _ | _ | _
    · have hlt : xs.length < ys.length := Nat.compare_eq_lt.mp h
      simp only [h]
      refine ⟨?_, ?_, ?_, ?_⟩
      · rw [Nat.min_eq_left hlt.le, List.take_length]
      · rw [Nat.min_eq_left hlt.le]
      · (try simp only [List.length_take]) <;> omega
      · (try simp only [List.length_take]) <;> omega
    · have heq : xs.length = ys.length := Nat.compare_eq_eq.mp h
      simp only [h]
      refine ⟨?_, ?_, ?_, ?_⟩
      · rw [Nat.min_eq_left heq.le, List.take_length]
      · rw [Nat.min_eq_right heq.ge, List.take_length]
      · (try simp only [List.length_take]) <;> omega
      · (try simp only [List.length_take]) <;> omega
    · have hgt : ys.length < xs.length := Nat.compare_eq_gt.mp h
      simp only [h]
      refine ⟨?_, ?_, ?_, ?_⟩
      · rw [Nat.min_eq_right hgt.le]
      · rw [Nat.min_eq_right hgt.le, List.take_length]
      · (try simp only [List.length_take]) <;> omega
      · (try simp only [List.length_take]) <;> omega
  · decide

/-- Claim C6: the fluent marker-radius setter stores the given radius,
and re-invoking it overrides any prior value (last write wins). -/
theorem point_size_last_write_wins :
    ∀ (X Y : Type) (b : MatLineSeries X Y) (s s1 s2 : Nat),
      (point_size b s).point_size = s ∧
      (point_size (point_size b s1) s2).point_size = s2 := by
  intro X Y b s s1 s2
  exact ⟨rfl, rfl⟩

/-- Claim C7: both constructors produce a builder with the default solid
black stroke style and marker radius 0. -/
theorem constructors_default_style :
    ∀ (X Y : Type) (k : IntKind) (xs : List X) (ys : List Y) (y : List Y),
      ((from_xy xs ys).style = blackInto ∧ (from_xy xs ys).point_size = 0) ∧
      ((from_y k y).style = blackInto ∧ (from_y k y).point_size = 0) ∧
      (blackInto.color = PlotColor.black ∧ blackInto.filled = false) := by
  intro X Y k xs ys y
  exact ⟨⟨rfl, rfl⟩, ⟨rfl, rfl⟩, rfl, rfl⟩

/-- Claim C8: the marker-radius setter modifies only the `point_size`
field — the stored x sequence, y sequence and style are unchanged. -/
theorem point_size_frame :
    ∀ (X Y : Type) (b : MatLineSeries X Y) (s : Nat),
      (point_size b s).x = b.x ∧ (point_size b s).y = b.y ∧
      (point_size b s).style = b.style := by
  intro X Y b s
  exact ⟨rfl, rfl, rfl⟩

/-- Helper: a count that does not exceed `T::MAX` is unchanged by the
cast `usize -> T`. -/
theorem castUsizeTo_eq_self (k : IntKind) (n : Nat) (h : (n : Int) ≤ k.max) :
    castUsizeTo k n = n := by
  have hmax : k.max < 2 ^ k.width := by
    unfold IntKind.max
    split
    · have h2 : (2 : Int) ^ (k.width - 1) ≤ 2 ^ k.width :=
        pow_le_pow_right₀ (by norm_num) (Nat.sub_le _ _)
      linarith
    · linarith [pow_pos (show (0 : Int) < 2 by norm_num) k.width]
  have hn : (n : Int) < 2 ^ k.width := lt_of_le_of_lt h hmax
  have hn' : n < 2 ^ k.width := by exact_mod_cast hn
  unfold castUsizeTo
  simp only [Nat.mod_eq_of_lt hn']
  split
  · next hc =>
    exfalso
    obtain ⟨hs, hge⟩ := hc
    have hup : ((2 : Int) ^ (k.width - 1)) ≤ (n : Int) := by exact_mod_cast hge
    unfold IntKind.max at h
    rw [if_pos hs] at h
    linarith
  · rfl

/-- Helper: a natural number below `2 ^ 64` is unchanged by the cast
`T -> usize` of its integer value. -/
theorem castToUsize_natCast (n : Nat) (h : n < 2 ^ 64) :
    castToUsize n = n := by
  unfold castToUsize
  rw [Int.emod_eq_of_lt (Int.natCast_nonneg n) (by exact_mod_cast h)]
  simp

/-- Helper: when the count fits in kind `k`, the synthesized x sequence
is the ascending range. -/
theorem synth_x_of_fits (k : IntKind) (y_len : Nat)
    (hle : (y_len : Int) ≤ k.max) (h64 : y_len < 2 ^ 64) :
    synth_x k y_len = (List.range y_len).map (fun i : Nat => (i : Int)) := by
  unfold synth_x
  simp only [castUsizeTo_eq_self k y_len hle, castToUsize_natCast y_len h64]
  simp

/-- Helper: `from_xy` on inputs of equal length stores both unchanged. -/
theorem from_xy_eq_len {X Y : Type} (xs : List X) (ys : List Y)
    (h : xs.length = ys.length) :
    from_xy xs ys =
      { style := blackInto, y := ys, x := xs, point_size := 0 } := by
  simp only [from_xy, Nat.compare_eq_eq.mpr h]

/-- Claim C3: emission produces nothing on an empty builder, exactly the
path when the pair count is positive and the radius is 0, and the `n`
markers in data order followed by the path (so `n + 1` primitives) when
the radius is positive. -/
theorem emit_primitive_count :
    ∀ (X Y : Type) (b : MatLineSeries X Y),
      ((b.x.zip b.y).length = 0 → emit b = []) ∧
      (0 < (b.x.zip b.y).length → b.point_size = 0 →
        emit b = [Primitive.path (b.x.zip b.y) b.style]) ∧
      (0 < (b.x.zip b.y).length → 0 < b.point_size →
        emit b =
          (b.x.zip b.y).map
              (fun p => Primitive.circle p b.point_size b.style) ++
            [Primitive.path (b.x.zip b.y) b.style] ∧
          (emit b).length = (b.x.zip b.y).length + 1) := by
  intro X Y b
  have hz : (0 < (b.x.zip b.y).length) → ¬ (b.x.zip b.y).isEmpty = true := by
    intro h
    rw [List.isEmpty_iff]
    intro he
    rw [he] at h
    simp at h
  refine ⟨?_, ?_, ?_⟩
  · intro h
    have he : b.x.zip b.y = [] := List.length_eq_zero.mp h
    simp [emit, he]
  · intro h hp
    simp [emit, hz h, hp]
  · intro h hp
    constructor
    · simp [emit, hz h, hp]
    · simp [emit, hz h, hp]

/-- Witness for claim C3 at a concrete two-point builder with radius 3:
both positivity hypotheses hold and emission is the two markers followed
by the path. -/
theorem emit_primitive_count_witness :
    emit (MatLineSeries.mk blackInto [7, 8] [1, 2] 3 : MatLineSeries Nat Nat) =
      ((MatLineSeries.mk blackInto [7, 8] [1, 2] 3 :
            MatLineSeries Nat Nat).x.zip
          (MatLineSeries.mk blackInto [7, 8] [1, 2] 3).y).map
          (fun p =>
            Primitive.circle p
              (MatLineSeries.mk blackInto [7, 8] [1, 2] 3 :
                MatLineSeries Nat Nat).point_size
              (MatLineSeries.mk blackInto [7, 8] [1, 2] 3 :
                MatLineSeries Nat Nat).style) ++
        [Primitive.path
          ((MatLineSeries.mk blackInto [7, 8] [1, 2] 3 :
              MatLineSeries Nat Nat).x.zip
            (MatLineSeries.mk blackInto [7, 8] [1, 2] 3).y)
          (MatLineSeries.mk blackInto [7, 8] [1, 2] 3 :
            MatLineSeries Nat Nat).style] ∧
      (emit (MatLineSeries.mk blackInto [7, 8] [1, 2] 3 :
          MatLineSeries Nat Nat)).length =
        ((MatLineSeries.mk blackInto [7, 8] [1, 2] 3 :
            MatLineSeries Nat Nat).x.zip
          (MatLineSeries.mk blackInto [7, 8] [1, 2] 3).y).length + 1 :=
  (emit_primitive_count Nat Nat
      (MatLineSeries.mk blackInto [7, 8] [1, 2] 3)).2.2
    (by decide) (by decide)

/-- Helper: the x field stored by `from_y` is the synthesized sequence
for the collected length. -/
theorem from_y_x (k : IntKind) {Y : Type} (y : List Y) :
    (from_y k y).x = synth_x k y.length := rfl

/-- Helper: the y field stored by `from_y` is the collected input. -/
theorem from_y_y (k : IntKind) {Y : Type} (y : List Y) :
    (from_y k y).y = y := rfl

set_option maxRecDepth 40000 in
/-- Claim C1, evaluated at its concrete scenario and at a failing input.
The u8 scenario of the claim holds: 300 y values give x values `0..=255`
followed by 44 repetitions of 255.  But the claim is false as a
universal statement over all twelve kinds: for kind `i64` (and `isize`)
on a 64-bit platform, a y sequence of length `2 ^ 63` makes the cast
round trip `(y_len as i64) as usize` the identity on the bit pattern, so
the overflow branch is not taken, `possibly_wrong_y_len` is negative,
and `(0..possibly_wrong_y_len).collect()` stores an empty x sequence
instead of the `2 ^ 63` ascending values the claim requires. -/
theorem from_y_overflow_divergence :
    (synth_x IntKind.u8 300 =
      (List.range 256).map (fun i => (i : Int)) ++
        List.replicate 44 (255 : Int)) ∧
    ((from_y IntKind.i64 (List.replicate (2 ^ 63) (0 : Nat))).x = [] ∧
      (from_y IntKind.i64 (List.replicate (2 ^ 63) (0 : Nat))).y.length =
        2 ^ 63) := by
  refine ⟨by decide, ?_, ?_⟩
  · rw [from_y_x, List.length_replicate]
    decide
  · rw [from_y_y, List.length_replicate]

/-- Claim C4, evaluated at a failing input.  `from_xy` does establish
`len xs = len ys`, but `from_y` violates the invariant: for kind `i8` on
a 64-bit platform and a y sequence of length `2 ^ 64 - 56`, the low
byte of the length is 200, `200 as i8 = -56`, and `-56 as usize`
sign-extends back to `2 ^ 64 - 56`, so the overflow branch is not taken
and `(0..-56).collect()` stores an empty x sequence next to the
`2 ^ 64 - 56` stored y values. -/
theorem from_y_invariant_violation :
    (∀ (X Y : Type) (xs : List X) (ys : List Y),
      (from_xy xs ys).x.length = (from_xy xs ys).y.length) ∧
    ((from_y IntKind.i8 (List.replicate (2 ^ 64 - 56) (0 : Nat))).x.length =
        0 ∧
      (from_y IntKind.i8 (List.replicate (2 ^ 64 - 56) (0 : Nat))).y.length =
        2 ^ 64 - 56) := by
  refine ⟨?_, ?_, ?_⟩
  · intro X Y xs ys
    unfold from_xy
    rcases h : compare xs.length ys.length with _ | _ | _
    · have hlt := Nat.compare_eq_lt.mp h
      simp only [h, List.length_take]
      omega
    · have heq := Nat.compare_eq_eq.mp h
      simp only [h]
      omega
    · have hgt := Nat.compare_eq_gt.mp h
      simp only [h, List.length_take]
      omega
  · rw [from_y_x, List.length_replicate]
    decide
  · rw [from_y_y, List.length_replicate]

/-- Claim C5, evaluated at a failing input.  `from_y` does not always
produce an x sequence of exactly `len y` elements: for kind `isize` on a
64-bit platform and a y sequence of length `2 ^ 63`, the stored x
sequence is empty while `len y = 2 ^ 63 ≠ 0`. -/
theorem from_y_not_length_preserving :
    (from_y IntKind.isize (List.replicate (2 ^ 63) (true : Bool))).x.length =
      0 ∧
    (from_y IntKind.isize (List.replicate (2 ^ 63) (true : Bool))).y.length =
      2 ^ 63 ∧
    (0 : Nat) ≠ 2 ^ 63 := by
  refine ⟨?_, ?_, by decide⟩
  · rw [from_y_x, List.length_replicate]
    decide
  · rw [from_y_y, List.length_replicate]

/-- Claim C9: when the y length fits in the kind (at most `T::MAX` cast
to usize), `from_y` produces exactly the builder `from_xy` produces on
the ascending index sequence `0, 1, …, len(y)-1` cast to the kind,
paired with the same y values. -/
theorem from_y_refines_from_xy (k : IntKind) (hk : k ∈ IntKind.allKinds)
    {Y : Type} (y : List Y) (hle : y.length ≤ MAX_as_usize k)
    (h64 : y.length < 2 ^ 64) :
    from_y k y =
      from_xy ((List.range y.length).map (fun i => castUsizeTo k i)) y := by
  have hmax : (y.length : Int) ≤ k.max := by
    fin_cases hk <;>
      (try norm_num [MAX_as_usize, castToUsize, IntKind.max, IntKind.u8,
        IntKind.u16, IntKind.u32, IntKind.u64, IntKind.u128, IntKind.usize,
        IntKind.i8, IntKind.i16, IntKind.i32, IntKind.i64, IntKind.i128,
        IntKind.isize] at hle ⊢) <;> omega
  have hcast : ∀ i ∈ List.range y.length, castUsizeTo k i = (i : Int) := by
    intro i hi
    have hi' : i < y.length := List.mem_range.mp hi
    have hcle : (i : Int) ≤ k.max := by
      have hcast' : (i : Int) < (y.length : Int) := by exact_mod_cast hi'
      linarith
    exact castUsizeTo_eq_self k i hcle
  have hxs : (List.range y.length).map (fun i => castUsizeTo k i) =
      (List.range y.length).map (fun i : Nat => (i : Int)) :=
    List.map_congr_left hcast
  rw [hxs, from_xy_eq_len _ _ (by simp)]
  simp only [from_y]
  rw [synth_x_of_fits k y.length hmax h64]

/-- Witness for claim C9 at kind u8 and a three-element y sequence. -/
theorem from_y_refines_from_xy_witness :
    from_y IntKind.u8 [true, false, true] =
      from_xy
        ((List.range (List.length [true, false, true])).map
          (fun i => castUsizeTo IntKind.u8 i))
        [true, false, true] :=
  from_y_refines_from_xy IntKind.u8 (by decide) [true, false, true]
    (by decide) (by decide)

/-- Helper: the saturated sequence `min i MAX` over an ascending range
is non-decreasing. -/
theorem pairwise_le_min_range (m : Int) (n : Nat) :
    ((List.range n).map (fun i : Nat => min (i : Int) m)).Pairwise
      (· ≤ ·) := by
  rw [List.pairwise_map]
  exact (List.pairwise_lt_range n).imp
    (fun hab => min_le_min (by exact_mod_cast Nat.le_of_lt hab) le_rfl)

/-- Helper: a prefix of the saturated sequence that stays within the
unsaturated part is strictly increasing. -/
theorem pairwise_lt_take_min_range (m : Int) (n u : Nat)
    (hu : (u : Int) ≤ m + 1) :
    (((List.range n).map (fun i : Nat => min (i : Int) m)).take u).Pairwise
      (· < ·) := by
  rw [← List.map_take, List.take_range]
  have hid : ∀ i ∈ List.range (min u n), min (i : Int) m = (i : Int) := by
    intro i hi
    have hi' : i < min u n := List.mem_range.mp hi
    have hiu : i < u := lt_of_lt_of_le hi' (min_le_left u n)
    have hle : (i : Int) ≤ m := by
      have : (i : Int) < (u : Int) := by exact_mod_cast hiu
      linarith
    exact min_eq_left hle
  rw [List.map_congr_left hid, List.pairwise_map]
  exact (List.pairwise_lt_range _).imp (fun hab => by exact_mod_cast hab)

/-- Helper: `T::MAX` is non-negative for each of the twelve kinds. -/
theorem max_nonneg_of_mem (k : IntKind) (hk : k ∈ IntKind.allKinds) :
    0 ≤ k.max := by
  fin_cases hk <;> decide

/-- Helper: for each of the twelve kinds, a prefix length of
`min y_len (MAX_as_usize k + 1)` stays within the unsaturated part of
the x axis (given `y_len < 2 ^ 64`). -/
theorem min_MAX_le (k : IntKind) (hk : k ∈ IntKind.allKinds) (y_len : Nat)
    (h64 : y_len < 2 ^ 64) :
    ((min y_len (MAX_as_usize k + 1) : Nat) : Int) ≤ k.max + 1 := by
  fin_cases hk <;>
    (try norm_num [MAX_as_usize, castToUsize, IntKind.max, IntKind.u8,
      IntKind.u16, IntKind.u32, IntKind.u64, IntKind.u128, IntKind.usize,
      IntKind.i8, IntKind.i16, IntKind.i32, IntKind.i64, IntKind.i128,
      IntKind.isize]) <;> omega

/-- Claim C10: for every kind and every y length a `usize` can hold, the
x sequence synthesized by `from_y` is non-decreasing, its prefix of
length `min y_len (MAX_as_usize k + 1)` is strictly increasing, and
every synthesized x value is non-negative (also for signed kinds). -/
theorem synth_x_monotone (k : IntKind) (hk : k ∈ IntKind.allKinds)
    (y_len : Nat) (h64 : y_len < 2 ^ 64) :
    (synth_x k y_len).Pairwise (· ≤ ·) ∧
    ((synth_x k y_len).take (min y_len (MAX_as_usize k + 1))).Pairwise
      (· < ·) ∧
    ∀ v ∈ synth_x k y_len, 0 ≤ v := by
  have hm0 : 0 ≤ k.max := max_nonneg_of_mem k hk
  have hbound := min_MAX_le k hk y_len h64
  simp only [synth_x]
  split
  · refine ⟨pairwise_le_min_range k.max y_len, ?_, ?_⟩
    · exact pairwise_lt_take_min_range k.max y_len _ hbound
    · intro v hv
      simp only [List.mem_map, List.mem_range] at hv
      obtain ⟨i, hi, rfl⟩ := hv
      exact le_min (Int.natCast_nonneg i) hm0
  · refine ⟨?_, ?_, ?_⟩
    · rw [List.pairwise_map]
      exact (List.pairwise_lt_range _).imp
        (fun hab => by exact_mod_cast Nat.le_of_lt hab)
    · apply List.Pairwise.sublist (List.take_sublist _ _)
      rw [List.pairwise_map]
      exact (List.pairwise_lt_range _).imp (fun hab => by exact_mod_cast hab)
    · intro v hv
      simp only [List.mem_map, List.mem_range] at hv
      obtain ⟨i, hi, rfl⟩ := hv
      exact Int.natCast_nonneg i

/-- Witness for claim C10 at kind u8 with 300 y values (the saturating
case). -/
theorem synth_x_monotone_witness :
    (synth_x IntKind.u8 300).Pairwise (· ≤ ·) ∧
    ((synth_x IntKind.u8 300).take
        (min 300 (MAX_as_usize IntKind.u8 + 1))).Pairwise (· < ·) ∧
    ∀ v ∈ synth_x IntKind.u8 300, 0 ≤ v :=
  synth_x_monotone IntKind.u8 (by decide) 300 (by decide)
